import Mathlib

/-!
Verification development for the agentic session controller of
deepseek-eng-v2.py: the token estimator, content truncation, the
snippet patch engine, path normalization, file creation, the tool-call
dispatcher, the streaming response assembler and conversation trimming,
shallowly embedded in Lean. Text is modelled as `List Char`, the
filesystem as an association list from resolved path segments to file
content plus a set of paths whose write raises, and Python exceptions
as an explicit `Except` layer. Definitions follow the source line by
line; float expressions of the source are replaced by exact rational
tests that provably agree with them on every input in range (see the
individual doc comments).
-/

/-- Constant CHARS_PER_TOKEN = 4 of the source. -/
def CHARS_PER_TOKEN : Nat := 4

/-- Constant MAX_CONTEXT_TOKENS = 50000 of the source. -/
def MAX_CONTEXT_TOKENS : Nat := 50000

/-- Constant MAX_FILE_TOKENS = 8000 of the source. -/
def MAX_FILE_TOKENS : Nat := 8000

/-- Constant MAX_FILES_PER_ADD = 20 of the source. -/
def MAX_FILES_PER_ADD : Nat := 20

/-- Model of estimate_tokens: `int(len(text) / CHARS_PER_TOKEN * 1.1)`.
For every length below 2 to the 50 the Python float expression equals
the exact floor of `len * 11 / 40`: `len / 4` is exact in binary
floating point, the exact product has a fractional part that is a
multiple of 1 / 40, the literal 1.1 rounds up, and the accumulated
rounding error stays many orders of magnitude below 1 / 40, so the
truncation by `int` can never land on the other side of an integer. -/
def estimate_tokens (text : List Char) : Nat :=
  if text = [] then 0 else text.length * 11 / 40

/-- The fixed truncation marker appended by truncate_content. -/
def truncationMarker : List Char :=
  ("\n\n... [Content truncated due to token limit]").data

/-- Index of the last newline of a list, none when absent: the model of
`truncated.rfind` of a newline (the source's -1 becomes none). -/
def lastNlIdx : List Char → Option Nat
  | [] => none
  | c :: rest =>
    match lastNlIdx rest with
    | some i => some (i + 1)
    | none => if c = '\n' then some 0 else none

/-- Model of truncate_content. The source compares the rfind result
against `char_limit * 0.8`; with char_limit = 4 * n the float test
`i > 3.2 * n` agrees with the exact rational test `16 * n < 5 * i` for
every i and n in range, because the fractional part of 16 * n / 5 is a
multiple of 1 / 5, far above the float rounding error. -/
def truncate_content (content : List Char) (max_tokens : Nat) : List Char :=
  if estimate_tokens content ≤ max_tokens then content
  else
    let char_limit := max_tokens * CHARS_PER_TOKEN
    let truncated := content.take char_limit
    let backed :=
      match lastNlIdx truncated with
      | some i => if 16 * max_tokens < 5 * i then truncated.take i else truncated
      | none => truncated
    backed ++ truncationMarker

/-- Whether the pattern matches at the front of the text: the step that
str.count and str.replace take at each candidate position. -/
def isPre : List Char → List Char → Bool
  | [], _ => true
  | _ :: _, [] => false
  | a :: ps, b :: ts => decide (a = b) && isPre ps ts

/-- Scanner for the non-overlapping occurrence count of str.count:
`skip` is how many characters of the last match are still to be jumped
over before matching may resume. -/
def countOccA (p : List Char) : List Char → Nat → Nat
  | [], _ => 0
  | _ :: rest, skip + 1 => countOccA p rest skip
  | t@(_ :: rest), 0 =>
    if isPre p t then 1 + countOccA p rest (p.length - 1)
    else countOccA p rest 0

/-- Model of content.count(original_snippet): Python counts
non-overlapping occurrences, and counts len + 1 for an empty pattern. -/
def countOcc (p t : List Char) : Nat :=
  if p = [] then t.length + 1 else countOccA p t 0

/-- Replace the leftmost match of a nonempty pattern, the loop of
str.replace(old, new, 1). -/
def replaceFirstA (p r : List Char) : List Char → List Char
  | [] => []
  | t@(c :: rest) =>
    if isPre p t then r ++ t.drop p.length
    else c :: replaceFirstA p r rest

/-- Model of content.replace(original_snippet, new_snippet, 1): an
empty pattern inserts the replacement in front of the text. -/
def replaceFirst (t p r : List Char) : List Char :=
  if p = [] then r ++ t else replaceFirstA p r t

/-- Whether a string starts with the given character (the model of
str.startswith on a one-character needle). -/
def headIs (c : Char) (s : String) : Bool :=
  match s.data with
  | [] => false
  | a :: _ => decide (a = c)

/-- A path argument as pathlib parses it: the original string, whether
it is absolute, and its non-root segments in order. -/
structure PPath where
  raw : String
  abs : Bool
  segs : List String
  deriving DecidableEq

/-- Model of Path.resolve over segments: a dot segment is dropped, a
parent segment pops the last accumulated segment (staying at the root
when there is none), and any other segment is appended. `acc` starts at
the root for absolute paths and at the already-resolved working
directory for relative ones. -/
def resolveSegs : List String → List String → List String
  | acc, [] => acc
  | acc, s :: rest =>
    if s = "." then resolveSegs acc rest
    else if s = ".." then resolveSegs acc.dropLast rest
    else resolveSegs (acc ++ [s]) rest

/-- The resolved absolute form of a path against the working
directory. -/
def resolvePath (cwd : List String) (p : PPath) : List String :=
  resolveSegs (if p.abs then [] else cwd) p.segs

/-- The Python exception classes the embedding distinguishes: a missing
dict key, the ValueError of the security and size rejections, an
OSError filesystem fault, a json.loads failure, and the
UnboundLocalError raised when an except handler reads a local variable
that was never assigned. -/
inductive PyExc where
  | keyError
  | valueError
  | osError
  | jsonError
  | unboundLocal
  deriving DecidableEq

/-- Model of normalize_path: resolve the path, then reject a resolved
path that still contains a parent-directory segment. Nothing here
inspects home-directory shorthands: the source checks those only inside
create_file. -/
def normalize_path (cwd : List String) (p : PPath) : Except PyExc (List String) :=
  let path := resolvePath cwd p
  if ".." ∈ path then .error .valueError else .ok path

/-- The filesystem: resolved paths mapped to contents (later writes
shadow earlier ones), the set of paths whose write raises a
non-FileNotFound OSError, and the set of existing paths whose bytes do
not decode as UTF-8, so that reading them raises UnicodeDecodeError --
a ValueError, not an OSError. For a path in the undecodable set the
stored text stands for the raw bytes and is never returned by a
read. -/
structure FSState where
  files : List (List String × List Char)
  ioFail : List (List String)
  undecodable : List (List String)
  deriving DecidableEq

/-- Lookup in the path-to-content map. -/
def lookupFiles (l : List (List String × List Char)) (p : List String) :
    Option (List Char) :=
  (l.find? (fun e => decide (e.1 = p))).map (fun e => e.2)

/-- Content of the file at a resolved path, none when absent. -/
def fsRead (fs : FSState) (p : List String) : Option (List Char) :=
  lookupFiles fs.files p

/-- Outcome of read_local_file: the decoded text, a FileNotFoundError
(an OSError), or a UnicodeDecodeError (a ValueError). -/
inductive ReadResult where
  | ok (c : List Char)
  | notFound
  | undecodable
  deriving DecidableEq

/-- Model of read_local_file at a resolved path. -/
def fsReadR (fs : FSState) (p : List String) : ReadResult :=
  match lookupFiles fs.files p with
  | none => .notFound
  | some c => if p ∈ fs.undecodable then .undecodable else .ok c

/-- Model of create_file: reject a path with a home-shorthand segment,
run the normalize_path check, reject content over 5,000,000 characters,
then write; a registered failing path raises OSError instead. The write
lands at the resolved path: the source opens the raw path, which the
operating system resolves against the same working directory. A
successful write stores UTF-8 text, so the path leaves the undecodable
set. -/
def create_file (cwd : List String) (fs : FSState) (p : PPath) (content : List Char) :
    Except PyExc FSState :=
  if p.segs.any (headIs '~') then .error .valueError
  else
    match normalize_path cwd p with
    | .error e => .error e
    | .ok rp =>
      if 5000000 < content.length then .error .valueError
      else if rp ∈ fs.ioFail then .error .osError
      else .ok ⟨(rp, content) :: fs.files, fs.ioFail,
        fs.undecodable.filter (fun q => !(decide (q = rp)))⟩

/-- The ways the body of apply_diff_edit can go after a successful
read: the ValueError kind raised for a missing or an ambiguous snippet,
or the content with its first occurrence replaced. -/
inductive PatchOutcome where
  | snippetNotFound
  | ambiguousSnippet (occurrences : Nat)
  | replaced (updated : List Char)
  deriving DecidableEq

/-- The three-way decision of apply_diff_edit on the file content:
count the non-overlapping occurrences of the original snippet, raise
for zero or for more than one, else replace the first occurrence. -/
def patch_decision (content original_snippet new_snippet : List Char) : PatchOutcome :=
  let occurrences := countOcc original_snippet content
  if occurrences = 0 then .snippetNotFound
  else if 1 < occurrences then .ambiguousSnippet occurrences
  else .replaced (replaceFirst content original_snippet new_snippet)

/-- Model of apply_diff_edit: read the file and take the patch
decision. The SnippetNotFound and AmbiguousSnippet ValueErrors it
raises are caught by its own except clause, so both return normally
with no write and only a console display; on the unique occurrence the
replaced content is written through create_file, whose ValueError
rejections are caught the same way, while an OSError from the write
escapes. Reading an undecodable file raises UnicodeDecodeError, which
the except ValueError clause catches -- but that handler then displays
the local variable content, which was never assigned, so
UnboundLocalError escapes instead. -/
def apply_diff_edit (cwd : List String) (fs : FSState) (p : PPath)
    (original_snippet new_snippet : List Char) : Except PyExc Unit × FSState :=
  match fsReadR fs (resolvePath cwd p) with
  | .notFound => (.ok (), fs)
  | .undecodable => (.error .unboundLocal, fs)
  | .ok content =>
    match patch_decision content original_snippet new_snippet with
    | .snippetNotFound => (.ok (), fs)
    | .ambiguousSnippet _ => (.ok (), fs)
    | .replaced updated =>
      match create_file cwd fs p updated with
      | .ok fs2 => (.ok (), fs2)
      | .error .osError => (.error .osError, fs)
      | .error _ => (.ok (), fs)

/-- The system preamble of the source (the dedented system_PROMPT
literal), transcribed verbatim. -/
def system_PROMPT : String :=
  "You are an elite software engineer called DeepSeek Engineer with decades of experience across all programming domains.\n" ++
  "Your expertise spans system design, algorithms, testing, and best practices.\n" ++
  "You provide thoughtful, well-structured solutions while explaining your reasoning.\n" ++
  "\n" ++
  "Core capabilities:\n" ++
  "1. Code Analysis & Discussion\n" ++
  "   - Analyze code with expert-level insight\n" ++
  "   - Explain complex concepts clearly\n" ++
  "   - Suggest optimizations and best practices\n" ++
  "   - Debug issues with precision\n" ++
  "\n" ++
  "2. File Operations (via function calls):\n" ++
  "   - read_file: Read a single file\x27s content\n" ++
  "   - read_multiple_files: Read multiple files at once\n" ++
  "   - create_file: Create or overwrite a single file\n" ++
  "   - create_multiple_files: Create multiple files at once\n" ++
  "   - edit_file: Make precise edits to existing files using snippet replacement\n" ++
  "\n" ++
  "Guidelines:\n" ++
  "1. Provide natural, conversational responses explaining your reasoning\n" ++
  "2. Use function calls when you need to read or modify files\n" ++
  "3. For file operations:\n" ++
  "   - Always read files first before editing them to understand the context\n" ++
  "   - Use precise snippet matching for edits\n" ++
  "   - Explain what changes you\x27re making and why\n" ++
  "   - Consider the impact of changes on the overall codebase\n" ++
  "4. Follow language-specific best practices\n" ++
  "5. Suggest tests or validation steps when appropriate\n" ++
  "6. Be thorough in your analysis and recommendations\n" ++
  "\n" ++
  "IMPORTANT: In your thinking process, if you realize that something requires a tool call, cut your thinking short and proceed directly to the tool call. Don\x27t overthink - act efficiently when file operations are needed.\n" ++
  "\n" ++
  "Remember: You\x27re a senior engineer - be thoughtful, precise, and explain your reasoning clearly.\n"

/-- A finalized tool call as stored on an assistant message. -/
structure FmtTC where
  id : String
  name : String
  arguments : String
  deriving DecidableEq

/-- A conversation message: role, optional content, tool calls
(assistant messages only) and tool_call_id (tool messages only). -/
structure Msg where
  role : String
  content : Option String
  tool_calls : List FmtTC
  tool_call_id : Option String
  deriving DecidableEq

/-- The predicate trim_conversation_history uses to single out copies
of the system preamble. -/
def isPreamble (m : Msg) : Bool :=
  decide (m.role = "system") && decide (m.content = some system_PROMPT)

/-- Keep the first occurrence of each index, mirroring the id-based
seen set of the source (list positions stand for object identity). -/
def dedupIdx : List (Nat × Msg) → List Nat → List (Nat × Msg)
  | [], _ => []
  | q :: rest, seen =>
    if q.1 ∈ seen then dedupIdx rest seen
    else q :: dedupIdx rest (q.1 :: seen)

/-- Model of trim_conversation_history: at thirty messages or fewer
nothing happens; otherwise the messages equal to a preamble copy are
set aside, and only when more than thirty others remain is the history
rebuilt as the preamble copies followed by the union of the last five
user messages and the last twenty-five messages, deduplicated by
identity, user messages first. -/
def trim_conversation_history (history : List Msg) : List Msg :=
  if history.length ≤ 30 then history
  else
    let system_msgs := history.filter isPreamble
    let other_msgs := history.filter (fun m => !(decide (m ∈ system_msgs)))
    if other_msgs.length ≤ 30 then history
    else
      let indexed := other_msgs.enum
      let recent_msgs := indexed.drop (indexed.length - 25)
      let user_idx := indexed.filter (fun q => decide (q.2.role = "user"))
      let user_msgs := user_idx.drop (user_idx.length - 5)
      let kept_msgs := dedupIdx (user_msgs ++ recent_msgs) []
      system_msgs ++ kept_msgs.map (fun q => q.2)

/-- One incremental tool-call fragment of the stream, carrying its
positional index and optional id, name and arguments pieces (a missing
or empty piece is none: the source tests truthiness). -/
structure TCDelta where
  index : Nat
  id : Option String
  name : Option String
  arguments : Option String

/-- A tool-call slot while the stream is still running. -/
structure RawTC where
  id : String
  name : String
  arguments : String
  deriving DecidableEq

/-- One streamed event: reasoning text (display only), answer text, or
a batch of tool-call fragments. -/
inductive StreamEvent where
  | reasoning (s : String)
  | answer (s : String)
  | toolCalls (ds : List TCDelta)

/-- Extend the slot list with empty slots until the index exists, the
while-append loop of the source. -/
def extendSlots (tcs : List RawTC) (index : Nat) : List RawTC :=
  tcs ++ List.replicate (index + 1 - tcs.length) ⟨"", "", ""⟩

/-- Fold one fragment into its slot: a delivered id overwrites, name
and arguments pieces append in arrival order. -/
def applyDelta (tcs : List RawTC) (d : TCDelta) : List RawTC :=
  let tcs2 := extendSlots tcs d.index
  match tcs2.get? d.index with
  | none => tcs2
  | some tc =>
    let tc2 : RawTC :=
      ⟨ match d.id with
        | some i => i
        | none => tc.id
      , tc.name ++ (match d.name with
        | some n => n
        | none => "")
      , tc.arguments ++ (match d.arguments with
        | some a => a
        | none => "") ⟩
    tcs2.set d.index tc2

/-- Streaming loop state: the accumulated answer text and the indexed
tool-call slots. -/
structure AsmState where
  final_content : String
  tool_calls : List RawTC

/-- Model of the stream consumption loop of stream_openai_response:
reasoning fragments are display-only, answer fragments append to the
final text, and tool-call fragments extend or update their slot. -/
def streamStep (st : AsmState) : StreamEvent → AsmState
  | .reasoning _ => st
  | .answer s => ⟨st.final_content ++ s, st.tool_calls⟩
  | .toolCalls ds => ⟨st.final_content, ds.foldl applyDelta st.tool_calls⟩

/-- Run a whole stream from the empty state. -/
def runStream (events : List StreamEvent) : AsmState :=
  events.foldl streamStep ⟨"", []⟩

/-- Model of the tool-call formatting pass at stream end: slots with an
empty name are dropped, an empty id is replaced by a generated
call identifier built from the slot index and the clock. -/
def formatToolCalls (raw : List RawTC) (now : Nat) : List FmtTC :=
  (raw.enum).filterMap (fun q =>
    if q.2.name = "" then none
    else some ⟨ (if q.2.id = "" then "call_" ++ toString q.1 ++ "_" ++ toString now
                 else q.2.id)
              , q.2.name, q.2.arguments ⟩)

/-- Model of the assistant-message assembly of stream_openai_response:
content is the accumulated answer text, or none when that text is
empty; when any formatted tool call exists it is attached, and content
is reassigned to none only when the answer text was already empty. -/
def mkAssistantMessage (final_content : String) (raw : List RawTC) (now : Nat) : Msg :=
  let base : Msg :=
    ⟨"assistant", if final_content = "" then none else some final_content, [], none⟩
  if raw = [] then base
  else
    let fmt := formatToolCalls raw now
    if fmt = [] then base
    else
      { base with
        content := if final_content = "" then none else base.content
        tool_calls := fmt }

/-- One entry of the files array of create_multiple_files (both keys
assumed present: a missing key would raise at the same point as any
other per-entry exception). -/
structure FInfo where
  path : PPath
  content : List Char
  deriving DecidableEq

/-- The parsed JSON argument object for the five operations: a missing
key models a KeyError at the corresponding dict access. -/
structure Args where
  file_path : Option PPath
  content : Option (List Char)
  file_paths : Option (List PPath)
  files : Option (List FInfo)
  original_snippet : Option (List Char)
  new_snippet : Option (List Char)

/-- A tool_call dict as the dispatcher receives it: name is the value
at function and then name when both keys exist; arguments is none when
the arguments key is missing, some none when json.loads fails on its
value, and some (some a) for a parsed object. -/
structure ToolCallDict where
  name : Option String
  arguments : Option (Option Args)

/-- Printable form of a resolved path, for result strings. -/
def renderPath (p : List String) : String :=
  "/" ++ String.intercalate "/" p

/-- Model of the read_multiple_files loop: each iteration normalizes
and reads; a FileNotFoundError is an OSError, caught inside the loop
and rendered inline, after which the loop continues. But the loop's
except clause names only OSError, so a UnicodeDecodeError from an
undecodable file -- a ValueError, like a normalization rejection --
escapes the loop and aborts the remaining reads. -/
def read_multiple_loop (cwd : List String) (fs : FSState) :
    List PPath → Except PyExc (List String)
  | [] => .ok []
  | p :: rest =>
    match normalize_path cwd p with
    | .error e => .error e
    | .ok np =>
      match fsReadR fs np with
      | .undecodable => .error .valueError
      | .ok c =>
        match read_multiple_loop cwd fs rest with
        | .ok rs =>
          .ok (("Content of file \x27" ++ renderPath np ++ "\x27:\n\n" ++ String.mk c) :: rs)
        | .error e => .error e
      | .notFound =>
        match read_multiple_loop cwd fs rest with
        | .ok rs => .ok (("Error reading \x27" ++ p.raw ++ "\x27: file not found") :: rs)
        | .error e => .error e

/-- Model of the create_multiple_files loop: files are created in
order; the first exception aborts the batch, leaving the earlier writes
in place. Returns the created raw paths or the escaping exception,
together with the filesystem state reached. -/
def create_multiple_loop (cwd : List String) (fs : FSState) :
    List FInfo → Except PyExc (List String) × FSState
  | [] => (.ok [], fs)
  | fi :: rest =>
    match create_file cwd fs fi.path fi.content with
    | .error e => (.error e, fs)
    | .ok fs2 =>
      match create_multiple_loop cwd fs2 rest with
      | (.ok paths, fs3) => (.ok (fi.path.raw :: paths), fs3)
      | (.error e, fs3) => (.error e, fs3)

/-- The filesystem state after attempting the creations in order,
stopping at the first failure. -/
def foldCreate (cwd : List String) (fs : FSState) : List FInfo → FSState
  | [] => fs
  | fi :: rest =>
    match create_file cwd fs fi.path fi.content with
    | .ok fs2 => foldCreate cwd fs2 rest
    | .error _ => fs

/-- Whether every creation of the list succeeds when run in order. -/
def createsOk (cwd : List String) (fs : FSState) : List FInfo → Bool
  | [] => true
  | fi :: rest =>
    match create_file cwd fs fi.path fi.content with
    | .ok fs2 => createsOk cwd fs2 rest
    | .error _ => false

/-- Rendering of str(e) for a caught exception (the exact Python
message text is abstracted to a fixed form per class). -/
def excMsg : PyExc → String
  | .keyError => "KeyError"
  | .valueError => "ValueError"
  | .osError => "OSError"
  | .jsonError => "json decode error"
  | .unboundLocal => "local variable referenced before assignment"

/-- Model of the body of execute_function_call_dict once the function
name and the parsed arguments are in hand: one branch per operation
name, each returning a result string or raising. The filesystem
reached is returned even when an exception escapes, since writes
already performed persist. -/
def dispatch_body (cwd : List String) (fs : FSState) (name : String) (args : Args) :
    Except PyExc String × FSState :=
  if name = "read_file" then
    match args.file_path with
    | none => (.error .keyError, fs)
    | some p =>
      match normalize_path cwd p with
      | .error e => (.error e, fs)
      | .ok np =>
        match fsReadR fs np with
        | .notFound => (.error .osError, fs)
        | .undecodable => (.error .valueError, fs)
        | .ok c =>
          (.ok ("Content of file \x27" ++ renderPath np ++ "\x27:\n\n" ++ String.mk c), fs)
  else if name = "read_multiple_files" then
    match args.file_paths with
    | none => (.error .keyError, fs)
    | some ps =>
      match read_multiple_loop cwd fs ps with
      | .error e => (.error e, fs)
      | .ok rs =>
        (.ok ("\n\n" ++ String.mk (List.replicate 50 '=') ++
          String.intercalate "\n\n" rs), fs)
  else if name = "create_file" then
    match args.file_path, args.content with
    | none, _ => (.error .keyError, fs)
    | _, none => (.error .keyError, fs)
    | some p, some c =>
      match create_file cwd fs p c with
      | .error e => (.error e, fs)
      | .ok fs2 => (.ok ("Successfully created file \x27" ++ p.raw ++ "\x27"), fs2)
  else if name = "create_multiple_files" then
    match args.files with
    | none => (.error .keyError, fs)
    | some ls =>
      match create_multiple_loop cwd fs ls with
      | (.ok paths, fs2) =>
        (.ok ("Successfully created " ++ toString paths.length ++ " files: " ++
          String.intercalate ", " paths), fs2)
      | (.error e, fs2) => (.error e, fs2)
  else if name = "edit_file" then
    match args.file_path, args.original_snippet, args.new_snippet with
    | none, _, _ => (.error .keyError, fs)
    | _, none, _ => (.error .keyError, fs)
    | _, _, none => (.error .keyError, fs)
    | some p, some osnip, some nsnip =>
      match fsReadR fs (resolvePath cwd p) with
      | .notFound =>
        (.ok ("Error: Could not read file \x27" ++ p.raw ++ "\x27 for editing"), fs)
      | .undecodable => (.error .valueError, fs)
      | .ok _ =>
        match apply_diff_edit cwd fs p osnip nsnip with
        | (.ok _, fs2) => (.ok ("Successfully edited file \x27" ++ p.raw ++ "\x27"), fs2)
        | (.error e, fs2) => (.error e, fs2)
  else (.ok ("Unknown function: " ++ name), fs)

/-- Model of execute_function_call_dict: extract the function name and
arguments, dispatch, and convert any exception of the body into an
error-result string. When the name extraction itself failed, the
handler's message formatting reads the local function_name that was
never assigned, so the handler raises UnboundLocalError past the
boundary instead of returning a string. -/
def execute_function_call_dict (cwd : List String) (fs : FSState) (tc : ToolCallDict) :
    Except PyExc String × FSState :=
  match tc.name with
  | none => (.error .unboundLocal, fs)
  | some name =>
    let step : Except PyExc String × FSState :=
      match tc.arguments with
      | none => (.error .keyError, fs)
      | some none => (.error .jsonError, fs)
      | some (some args) => dispatch_body cwd fs name args
    match step with
    | (.ok s, fs2) => (.ok s, fs2)
    | (.error e, fs2) => (.ok ("Error executing " ++ name ++ ": " ++ excMsg e), fs2)

/-- The excluded_files set of add_directory_to_conversation,
transcribed verbatim. -/
def excluded_files : List String :=
  [".DS_Store", "Thumbs.db", ".gitignore", ".python-version",
   "uv.lock", ".uv", "uvenv", ".uvenv", ".venv", "venv",
   "__pycache__", ".pytest_cache", ".coverage", ".mypy_cache",
   "node_modules", "package-lock.json", "yarn.lock", "pnpm-lock.yaml",
   ".next", ".nuxt", "dist", "build", ".cache", ".parcel-cache",
   ".turbo", ".vercel", ".output", ".contentlayer",
   "out", "coverage", ".nyc_output", "storybook-static",
   ".env", ".env.local", ".env.development", ".env.production",
   ".git", ".svn", ".hg", "CVS"]

/-- The excluded_extensions set of add_directory_to_conversation,
transcribed verbatim. -/
def excluded_extensions : List String :=
  [".png", ".jpg", ".jpeg", ".gif", ".ico", ".svg", ".webp", ".avif",
   ".mp4", ".webm", ".mov", ".mp3", ".wav", ".ogg",
   ".zip", ".tar", ".gz", ".7z", ".rar",
   ".exe", ".dll", ".so", ".dylib", ".bin",
   ".pdf", ".doc", ".docx", ".xls", ".xlsx", ".ppt", ".pptx",
   ".pyc", ".pyo", ".pyd", ".egg", ".whl",
   ".uv", ".uvenv",
   ".db", ".sqlite", ".sqlite3", ".log",
   ".idea", ".vscode",
   ".map", ".chunk.js", ".chunk.css",
   ".min.js", ".min.css", ".bundle.js", ".bundle.css",
   ".cache", ".tmp", ".temp",
   ".ttf", ".otf", ".woff", ".woff2", ".eot"]

/-- Count of the leading dots of a name (os.path.splitext never splits
inside them). -/
def leadingDots : List Char → Nat
  | [] => 0
  | c :: rest => if c = '.' then leadingDots rest + 1 else 0

/-- Index of the last dot of a list, none when absent. -/
def lastDotIdx : List Char → Option Nat
  | [] => none
  | c :: rest =>
    match lastDotIdx rest with
    | some i => some (i + 1)
    | none => if c = '.' then some 0 else none

/-- Model of the extension part of os.path.splitext, lowercased as in
the source: the suffix from the last dot that lies beyond the leading
dots, or the empty string. -/
def extOf (name : String) : String :=
  let cs := name.data
  match lastDotIdx cs with
  | none => ""
  | some i =>
    if leadingDots cs ≤ i then String.mk ((cs.drop i).map Char.toLower) else ""

/-- One file the (externally pruned) os.walk yields, in walk order: its
basename, its reported size, whether the binary sniff fires, and the
content a read returns (none models a read failure). The skipped list
of the source stores annotated path strings; the model keeps the
entries themselves. -/
structure FEntry where
  name : String
  size : Nat
  binary : Bool
  content : Option (List Char)
  deriving DecidableEq

/-- Model of the eligibility scan of add_directory_to_conversation:
hidden or excluded names, excluded extensions, files over 500,000 bytes
and binary files go to the skipped list, the rest are eligible, in walk
order. -/
def scanEntries : List FEntry → List FEntry × List FEntry
  | [] => ([], [])
  | e :: rest =>
    let s := scanEntries rest
    if headIs '.' e.name || decide (e.name ∈ excluded_files) then (s.1, e :: s.2)
    else if decide (extOf e.name ∈ excluded_extensions) then (s.1, e :: s.2)
    else if 500000 < e.size then (s.1, e :: s.2)
    else if e.binary then (s.1, e :: s.2)
    else (e :: s.1, s.2)

/-- Model of the admission loop of add_directory_to_conversation: for
each eligible file in order, a failed read is skipped (the exception is
caught and the loop continues); a file whose estimated token cost would
push the running total over the budget stops the loop entirely;
otherwise the file is admitted, with its counted cost re-estimated
after truncation when it exceeds half the per-file ceiling. Returns the
admitted entries and the final running total. -/
def processFiles (current total : Nat) : List FEntry → List FEntry × Nat
  | [] => ([], total)
  | f :: rest =>
    match f.content with
    | none => processFiles current total rest
    | some c =>
      let ft := estimate_tokens c
      if MAX_CONTEXT_TOKENS < current + total + ft then ([], total)
      else
        let ft2 := if MAX_FILE_TOKENS / 2 < ft
          then estimate_tokens (truncate_content c (MAX_FILE_TOKENS / 2)) else ft
        let res := processFiles current (total + ft2) rest
        (f :: res.1, res.2)

/-- The capped admission candidates: the first MAX_FILES_PER_ADD
eligible files. -/
def files_to_add (entries : List FEntry) : List FEntry :=
  (scanEntries entries).1.take MAX_FILES_PER_ADD

/-- Model of add_directory_to_conversation as a whole: scan, cap, then
admit under the running token budget; returns the admitted entries and
the skipped entries. -/
def add_directory_to_conversation (current : Nat) (entries : List FEntry) :
    List FEntry × List FEntry :=
  ((processFiles current 0 (files_to_add entries)).1, (scanEntries entries).2)

/-! ## Lemmas about matching, counting and replacing -/

/-- isPre holds exactly when the pattern is an initial segment. -/
lemma isPre_iff (p : List Char) : ∀ t, isPre p t = true ↔ ∃ u, p ++ u = t := by
  induction p with
  | nil => intro t; simp [isPre]
  | cons a ps ih =>
    intro t
    cases t with
    | nil => simp [isPre]
    | cons b ts =>
      simp only [isPre, Bool.and_eq_true, decide_eq_true_eq, ih]
      constructor
      · rintro ⟨rfl, u, rfl⟩
        exact ⟨u, rfl⟩
      · rintro ⟨u, h⟩
        injection h with h1 h2
        exact ⟨h1, u, h2⟩

/-- A text containing at least one match of a nonempty pattern splits
around the leftmost match, and replaceFirstA rewrites exactly that
match. -/
lemma countOccA_pos_split (p r : List Char) :
    ∀ t, 1 ≤ countOccA p t 0 →
      ∃ pre suf, pre ++ p ++ suf = t ∧ replaceFirstA p r t = pre ++ r ++ suf := by
  intro t
  induction t with
  | nil => intro h; simp [countOccA] at h
  | cons c rest ih =>
    intro h
    by_cases hpre : isPre p (c :: rest) = true
    · obtain ⟨u, hu⟩ := (isPre_iff p (c :: rest)).1 hpre
      have hdrop : (c :: rest).drop p.length = u := by
        rw [← hu]
        exact List.drop_left p u
      refine ⟨[], u, by simpa using hu, ?_⟩
      simp [replaceFirstA, hpre, hdrop]
    · have hc : countOccA p (c :: rest) 0 = countOccA p rest 0 := by
        simp [countOccA, hpre]
      rw [hc] at h
      obtain ⟨pre, suf, h1, h2⟩ := ih h
      refine ⟨c :: pre, suf, by simp [← h1], ?_⟩
      simp [replaceFirstA, hpre, h2]

/-! ## Lemmas about path resolution and file creation -/

/-- Resolution never leaves a parent-directory segment behind. -/
lemma resolveSegs_no_parent :
    ∀ (l acc : List String), ¬ ".." ∈ acc → ¬ ".." ∈ resolveSegs acc l := by
  intro l
  induction l with
  | nil => intro acc h; simpa [resolveSegs] using h
  | cons s rest ih =>
    intro acc h
    by_cases h1 : s = "."
    · simpa [resolveSegs, h1] using ih acc h
    · by_cases h2 : s = ".."
      · have hd : ¬ ".." ∈ acc.dropLast := fun hm => h (List.dropLast_subset acc hm)
        simpa [resolveSegs, h1, h2] using ih acc.dropLast hd
      · have ha : ¬ ".." ∈ acc ++ [s] := by
          intro hm
          rcases List.mem_append.1 hm with hm | hm
          · exact h hm
          · exact h2 (List.mem_singleton.1 hm).symm
        simpa [resolveSegs, h1, h2] using ih (acc ++ [s]) ha

/-- normalize_path succeeds on every input once the working directory
is canonical, returning the resolved path. -/
lemma normalize_path_ok (cwd : List String) (p : PPath) (hcwd : ¬ ".." ∈ cwd) :
    normalize_path cwd p = .ok (resolvePath cwd p) := by
  have hm : ¬ ".." ∈ resolvePath cwd p := by
    unfold resolvePath
    apply resolveSegs_no_parent
    cases hb : p.abs <;> simp [hcwd]
  simp [normalize_path, hm]

/-- create_file succeeds and prepends the new mapping when the path is
clean, the content under the size cap, and the write not faulted. -/
lemma create_file_ok (cwd : List String) (fs : FSState) (p : PPath) (c : List Char)
    (hcwd : ¬ ".." ∈ cwd) (hhome : p.segs.any (headIs '~') = false)
    (hsize : c.length ≤ 5000000) (hio : ¬ resolvePath cwd p ∈ fs.ioFail) :
    create_file cwd fs p c = .ok ⟨(resolvePath cwd p, c) :: fs.files, fs.ioFail,
      fs.undecodable.filter (fun q => !(decide (q = resolvePath cwd p)))⟩ := by
  simp [create_file, hhome, normalize_path_ok cwd p hcwd, Nat.not_lt.2 hsize, hio]

/-- Reading the path just written returns the new content. -/
lemma fsRead_insert_self (fs fs2 : FSState) (rp : List String) (c : List Char)
    (h : fs2.files = (rp, c) :: fs.files) : fsRead fs2 rp = some c := by
  simp [fsRead, h, lookupFiles, List.find?]

/-- Reading any other path is unaffected by a write. -/
lemma fsRead_insert_other (fs fs2 : FSState) (rp q : List String) (c : List Char)
    (h : fs2.files = (rp, c) :: fs.files) (hq : q ≠ rp) :
    fsRead fs2 q = fsRead fs q := by
  have hne : decide (rp = q) = false := decide_eq_false (fun hh => hq hh.symm)
  simp [fsRead, h, lookupFiles, List.find?, hne]

/-! ## C1: the patch engine -/

/-- C1 amended: with the target file readable, a snippet occurring
exactly once is replaced in place -- the patch decision is the
replacement, the bytes before and after the single occurrence are
byte-identical in the written file and every other path is untouched --
provided the write itself is admissible (no home-shorthand segment,
result within the size cap, no write fault). A snippet occurring zero
times or more than once raises the corresponding SnippetNotFound or
AmbiguousSnippet ValueError, but apply_diff_edit catches it itself and
returns normally with the whole filesystem unchanged: no failure
surfaces at its boundary. -/
theorem apply_diff_edit_cases (cwd : List String) (fs : FSState) (p : PPath)
    (osnip nsnip content : List Char)
    (hcwd : ¬ ".." ∈ cwd)
    (hread : fsReadR fs (resolvePath cwd p) = .ok content)
    (hhome : p.segs.any (headIs '~') = false)
    (hsize : (replaceFirst content osnip nsnip).length ≤ 5000000)
    (hio : ¬ resolvePath cwd p ∈ fs.ioFail) :
    (countOcc osnip content = 1 →
      ∃ pre suf, pre ++ osnip ++ suf = content ∧
        patch_decision content osnip nsnip = .replaced (pre ++ nsnip ++ suf) ∧
        (apply_diff_edit cwd fs p osnip nsnip).1 = .ok () ∧
        fsRead (apply_diff_edit cwd fs p osnip nsnip).2 (resolvePath cwd p) =
          some (pre ++ nsnip ++ suf) ∧
        ∀ q, q ≠ resolvePath cwd p →
          fsRead (apply_diff_edit cwd fs p osnip nsnip).2 q = fsRead fs q) ∧
    (countOcc osnip content = 0 →
      patch_decision content osnip nsnip = .snippetNotFound ∧
      apply_diff_edit cwd fs p osnip nsnip = (.ok (), fs)) ∧
    (1 < countOcc osnip content →
      patch_decision content osnip nsnip = .ambiguousSnippet (countOcc osnip content) ∧
      apply_diff_edit cwd fs p osnip nsnip = (.ok (), fs)) := by
  refine ⟨?_, ?_, ?_⟩
  · intro h1
    have hsplit : ∃ pre suf, pre ++ osnip ++ suf = content ∧
        replaceFirst content osnip nsnip = pre ++ nsnip ++ suf := by
      by_cases hp : osnip = []
      · subst hp
        have hlen : content.length + 1 = 1 := by simpa [countOcc] using h1
        have hnil : content = [] := by
          cases content with
          | nil => rfl
          | cons a l => simp at hlen
        refine ⟨[], [], by simp [hnil], by simp [replaceFirst, hnil]⟩
      · have hc : countOccA osnip content 0 = 1 := by simpa [countOcc, hp] using h1
        obtain ⟨pre, suf, hps, hrep⟩ :=
          countOccA_pos_split osnip nsnip content (by omega)
        exact ⟨pre, suf, hps, by simpa [replaceFirst, hp] using hrep⟩
    obtain ⟨pre, suf, hps, hrep⟩ := hsplit
    have hdec : patch_decision content osnip nsnip = .replaced (pre ++ nsnip ++ suf) := by
      simp [patch_decision, h1, hrep]
    have hcf := create_file_ok cwd fs p (replaceFirst content osnip nsnip) hcwd hhome hsize hio
    rw [hrep] at hcf
    have happ : apply_diff_edit cwd fs p osnip nsnip =
        (.ok (), ⟨(resolvePath cwd p, pre ++ nsnip ++ suf) :: fs.files, fs.ioFail,
          fs.undecodable.filter (fun q => !(decide (q = resolvePath cwd p)))⟩) := by
      simp only [apply_diff_edit, hread, hdec]
      rw [hcf]
    refine ⟨pre, suf, hps, hdec, by rw [happ], ?_, ?_⟩
    · rw [happ]
      exact fsRead_insert_self fs _ (resolvePath cwd p) (pre ++ nsnip ++ suf) rfl
    · intro q hq
      rw [happ]
      exact fsRead_insert_other fs _ (resolvePath cwd p) q (pre ++ nsnip ++ suf) rfl hq
  · intro h0
    have hdec : patch_decision content osnip nsnip = .snippetNotFound := by
      simp [patch_decision, h0]
    exact ⟨hdec, by simp [apply_diff_edit, hread, hdec]⟩
  · intro h2
    have h0 : ¬ countOcc osnip content = 0 := by omega
    have hdec : patch_decision content osnip nsnip =
        .ambiguousSnippet (countOcc osnip content) := by
      simp [patch_decision, h0, h2]
    exact ⟨hdec, by simp [apply_diff_edit, hread, hdec]⟩

/-- Working directory used by the concrete witnesses. -/
def cwdW : List String := ["w"]

/-- Concrete relative path used by the patch witnesses. -/
def pW : PPath := ⟨"f.txt", false, ["f.txt"]⟩

/-- Concrete one-file filesystem used by the patch witness. -/
def fsW : FSState := ⟨[(["w", "f.txt"], "axb".data)], [], []⟩

/-- Witness for apply_diff_edit_cases: editing the unique occurrence of
x in axb rewrites exactly that byte. -/
theorem apply_diff_edit_cases_witness :
    ∃ pre suf, pre ++ "x".data ++ suf = "axb".data ∧
      patch_decision "axb".data "x".data "Y".data = .replaced (pre ++ "Y".data ++ suf) ∧
      (apply_diff_edit cwdW fsW pW "x".data "Y".data).1 = .ok () ∧
      fsRead (apply_diff_edit cwdW fsW pW "x".data "Y".data).2 (resolvePath cwdW pW) =
        some (pre ++ "Y".data ++ suf) ∧
      ∀ q, q ≠ resolvePath cwdW pW →
        fsRead (apply_diff_edit cwdW fsW pW "x".data "Y".data).2 q = fsRead fsW q :=
  (apply_diff_edit_cases cwdW fsW pW "x".data "Y".data "axb".data
    (by decide) (by decide) (by decide) (by decide) (by decide)).1 (by decide)

/-- C1 counterexample: with the snippet absent (count zero) the claim
says apply fails with SnippetNotFound; in the source the raised
ValueError is caught by apply_diff_edit itself, which returns normally
with no write, so no failure surfaces at its boundary. -/
theorem apply_diff_edit_swallows_not_found :
    countOcc "z".data "axb".data = 0 ∧
    patch_decision "axb".data "z".data "Y".data = .snippetNotFound ∧
    apply_diff_edit cwdW fsW pW "z".data "Y".data = (.ok (), fsW) :=
  ⟨by decide, by decide, rfl⟩

/-! ## C6: path normalization -/

/-- C6 counterexample: a relative path whose first segment is the
home-directory shorthand is not rejected by normalize_path -- the claim
says any path with a tilde segment fails with InvalidPath, but
normalize_path resolves it under the working directory and returns it. -/
theorem normalize_path_accepts_tilde :
    (["~", "x"].any (headIs '~')) = true ∧
    normalize_path ["home", "u"] ⟨"~/x", false, ["~", "x"]⟩ =
      .ok ["home", "u", "~", "x"] := by
  exact ⟨by decide, rfl⟩

/-- C6 amended: normalize_path always succeeds (once the working
directory is canonical) and returns the canonical absolute resolved
path: resolution removes every parent-directory segment, so the
traversal rejection can never fire, and home-directory shorthands are
not rejected here -- that check is performed by create_file, which
fails with ValueError on any path with a tilde segment. -/
theorem normalize_path_amended (cwd : List String) (p : PPath) (fs : FSState)
    (c : List Char) (hcwd : ¬ ".." ∈ cwd) :
    normalize_path cwd p = .ok (resolvePath cwd p) ∧
    (p.segs.any (headIs '~') = true → create_file cwd fs p c = .error .valueError) := by
  refine ⟨normalize_path_ok cwd p hcwd, ?_⟩
  intro h
  simp [create_file, h]

/-- Witness for normalize_path_amended at a concrete tilde path. -/
theorem normalize_path_amended_witness :
    normalize_path ["w"] ⟨"~/t", false, ["~", "t"]⟩ =
      .ok (resolvePath ["w"] ⟨"~/t", false, ["~", "t"]⟩) ∧
    ((["~", "t"] : List String).any (headIs '~') = true →
      create_file ["w"] ⟨[], [], []⟩ ⟨"~/t", false, ["~", "t"]⟩ "y".data =
        .error .valueError) :=
  normalize_path_amended ["w"] ⟨"~/t", false, ["~", "t"]⟩ ⟨[], [], []⟩ "y".data (by decide)

/-! ## C2: the dispatcher boundary -/

/-- The empty filesystem used by the dispatcher counterexamples. -/
def fsEmpty : FSState := ⟨[], [], []⟩

/-- An argument object with no keys. -/
def emptyArgs : Args := ⟨none, none, none, none, none, none⟩

/-- C2: a tool-call payload whose function object carries no name makes
the dispatcher raise past its boundary -- the KeyError of the failed
extraction reaches the except handler, whose error message reads the
local function_name that was never assigned, raising UnboundLocalError
-- instead of returning an error-result string as the claim states. -/
theorem execute_function_call_dict_raises :
    execute_function_call_dict ["w"] fsEmpty ⟨none, some (some emptyArgs)⟩ =
      (.error .unboundLocal, fsEmpty) := by
  rfl

/-! ## C3: edit_file failure reporting -/

/-- The two-occurrence file of the edit_file counterexample. -/
def fsAmbig : FSState := ⟨[(["w", "f.txt"], "b\nb".data)], [], []⟩

/-- The edit_file tool call whose snippet is ambiguous. -/
def tcAmbig : ToolCallDict :=
  ⟨some "edit_file",
    some (some ⟨some ⟨"f.txt", false, ["f.txt"]⟩, none, none, none,
      some "b".data, some "X".data⟩)⟩

/-- C3: on a readable file in which the snippet occurs twice, the patch
fails as ambiguous (count 2, no write), yet the dispatcher's result
string is the success confirmation, not a failure report: the model is
told the edit succeeded while the file is unchanged. -/
theorem edit_file_reports_success_on_failure :
    countOcc "b".data "b\nb".data = 2 ∧
    execute_function_call_dict ["w"] fsAmbig tcAmbig =
      (.ok ("Successfully edited file \x27f.txt\x27"), fsAmbig) := by
  exact ⟨by decide, rfl⟩

/-! ## C4: content alongside tool calls -/

/-- The counterexample stream: one answer-text fragment, then one
complete tool-call fragment. -/
def eventsC4 : List StreamEvent :=
  [.answer "Hello", .toolCalls [⟨0, some "call_1", some "read_file", some "{}"⟩]]

/-- C4: a turn that streamed both answer text and a tool call is
appended with its tool calls AND the non-empty content -- the source
reassigns content to None only when the answer text was already empty,
so the Message invariant (tool calls imply absent content) is violated
for this stream, contrary to the claim that content is forced absent. -/
theorem assistant_message_keeps_content :
    (mkAssistantMessage (runStream eventsC4).final_content
      (runStream eventsC4).tool_calls 0).tool_calls ≠ [] ∧
    (mkAssistantMessage (runStream eventsC4).final_content
      (runStream eventsC4).tool_calls 0).content = some "Hello" := by
  constructor
  · decide
  · decide

/-! ## C9: read_multiple_files partial failures -/

/-- The per-path entry the read_multiple_files loop produces: tagged
content on success, an inline error line on a read fault. -/
def read_file_entry (cwd : List String) (fs : FSState) (p : PPath) : String :=
  match fsRead fs (resolvePath cwd p) with
  | some c =>
    "Content of file \x27" ++ renderPath (resolvePath cwd p) ++ "\x27:\n\n" ++ String.mk c
  | none => "Error reading \x27" ++ p.raw ++ "\x27: file not found"

/-- The read of a decodable path reduces to the map lookup. -/
lemma fsReadR_decodable (fs : FSState) (np : List String)
    (h : ¬ np ∈ fs.undecodable) :
    fsReadR fs np = (match fsRead fs np with
      | some c => ReadResult.ok c
      | none => ReadResult.notFound) := by
  unfold fsReadR
  cases hfs : lookupFiles fs.files np with
  | none => simp [fsRead, hfs]
  | some c => simp [fsRead, hfs, h]

/-- C9 amended: for every list of paths whose files all decode, each
per-file failure (a missing file, whose FileNotFoundError is an
OSError) is reported inline in the concatenated result for that entry
and the loop continues through every remaining path. But the loop's
except clause names only OSError, so a read failure that is not one --
the UnicodeDecodeError of an undecodable file, a ValueError -- escapes
the loop after any run of decodable paths and aborts the remaining
reads: the whole call surfaces a single exception instead of inline
entries. -/
theorem read_multiple_files_inline (cwd : List String) (fs : FSState)
    (hcwd : ¬ ".." ∈ cwd) :
    (∀ ps : List PPath, (∀ p ∈ ps, ¬ resolvePath cwd p ∈ fs.undecodable) →
      read_multiple_loop cwd fs ps = .ok (ps.map (read_file_entry cwd fs))) ∧
    (∀ (ps1 : List PPath) (p : PPath) (ps2 : List PPath),
      (∀ q ∈ ps1, ¬ resolvePath cwd q ∈ fs.undecodable) →
      fsReadR fs (resolvePath cwd p) = .undecodable →
      read_multiple_loop cwd fs (ps1 ++ p :: ps2) = .error .valueError) := by
  constructor
  · intro ps
    induction ps with
    | nil => intro _; rfl
    | cons p rest ih =>
      intro hdec
      have hp : ¬ resolvePath cwd p ∈ fs.undecodable := hdec p (by simp)
      have hrest := ih (fun q hq => hdec q (by simp [hq]))
      have hr := fsReadR_decodable fs (resolvePath cwd p) hp
      cases hfs : fsRead fs (resolvePath cwd p) with
      | none =>
        rw [hfs] at hr
        simp [read_multiple_loop, normalize_path_ok cwd p hcwd, hr, hrest,
          read_file_entry, hfs]
      | some c =>
        rw [hfs] at hr
        simp [read_multiple_loop, normalize_path_ok cwd p hcwd, hr, hrest,
          read_file_entry, hfs]
  · intro ps1 p ps2
    induction ps1 with
    | nil =>
      intro _ hund
      simp [read_multiple_loop, normalize_path_ok cwd p hcwd, hund]
    | cons q rest ih =>
      intro hdec hund
      have hq : ¬ resolvePath cwd q ∈ fs.undecodable := hdec q (by simp)
      have htail := ih (fun r hr => hdec r (by simp [hr])) hund
      have hr := fsReadR_decodable fs (resolvePath cwd q) hq
      cases hfs : fsRead fs (resolvePath cwd q) with
      | none =>
        rw [hfs] at hr
        simp [read_multiple_loop, normalize_path_ok cwd q hcwd, hr, htail]
      | some c =>
        rw [hfs] at hr
        simp [read_multiple_loop, normalize_path_ok cwd q hcwd, hr, htail]

/-- Filesystem of the read_multiple_files witness. -/
def fsR : FSState := ⟨[(["w", "a.txt"], "hi".data)], [], []⟩

/-- Path list of the read_multiple_files witness: one readable file,
one missing file. -/
def psR : List PPath := [⟨"a.txt", false, ["a.txt"]⟩, ⟨"missing.txt", false, ["missing.txt"]⟩]

/-- Witness for read_multiple_files_inline at a concrete mixed list. -/
theorem read_multiple_files_inline_witness :
    read_multiple_loop ["w"] fsR psR = .ok (psR.map (read_file_entry ["w"] fsR)) :=
  (read_multiple_files_inline ["w"] fsR (by decide)).1 psR (by decide)

/-- Filesystem of the C9 counterexample: an undecodable file and a
readable file. -/
def fsU : FSState :=
  ⟨[(["w", "bad.bin"], "xx".data), (["w", "good.txt"], "ok".data)], [], [["w", "bad.bin"]]⟩

/-- C9 counterexample: the first path's read failure is a
UnicodeDecodeError, which the loop's except OSError clause does not
catch; the whole call aborts with the exception and the second,
readable path is never reported -- so a per-file failure that is not a
filesystem fault is not reported inline and does abort the reads of
the others, contrary to the claim. -/
theorem read_multiple_aborts_on_decode_error :
    fsReadR fsU (resolvePath ["w"] ⟨"bad.bin", false, ["bad.bin"]⟩) = .undecodable ∧
    read_multiple_loop ["w"] fsU
      [⟨"bad.bin", false, ["bad.bin"]⟩, ⟨"good.txt", false, ["good.txt"]⟩] =
      .error .valueError :=
  ⟨by decide, rfl⟩

/-! ## C10: create_multiple_files batch semantics -/

/-- Whether an Except value is a success. -/
def isOkE {α β : Type} : Except α β → Bool
  | .ok _ => true
  | .error _ => false

/-- The successful create_file prepends exactly the written file. -/
lemma create_file_ok_shape (cwd : List String) (fs : FSState) (p : PPath)
    (c : List Char) (fs2 : FSState) (hcwd : ¬ ".." ∈ cwd)
    (h : create_file cwd fs p c = .ok fs2) :
    fs2 = ⟨(resolvePath cwd p, c) :: fs.files, fs.ioFail,
      fs.undecodable.filter (fun q => !(decide (q = resolvePath cwd p)))⟩ := by
  simp only [create_file, normalize_path_ok cwd p hcwd] at h
  split at h
  · exact absurd h (by simp)
  · split at h
    · exact absurd h (by simp)
    · split at h
      · exact absurd h (by simp)
      · exact (Except.ok.inj h).symm

/-- The loop stops with the first failing create, leaving the state of
the successful prefix. -/
lemma create_multiple_loop_err (cwd : List String) :
    ∀ (ls : List FInfo) (fs : FSState) (k : Nat) (hk : k < ls.length),
      createsOk cwd fs (ls.take k) = true →
      isOkE (create_file cwd (foldCreate cwd fs (ls.take k))
        (ls.get ⟨k, hk⟩).path (ls.get ⟨k, hk⟩).content) = false →
      ∃ e, create_multiple_loop cwd fs ls = (.error e, foldCreate cwd fs (ls.take k)) := by
  intro ls
  induction ls with
  | nil => intro fs k hk; exact absurd hk (by simp)
  | cons fi rest ih =>
    intro fs k hk hok hfail
    cases k with
    | zero =>
      simp only [List.take_zero, foldCreate] at hfail ⊢
      cases hcf : create_file cwd fs fi.path fi.content with
      | ok fs2 =>
        rw [show (fi :: rest).get ⟨0, hk⟩ = fi from rfl, hcf] at hfail
        exact absurd hfail (by simp [isOkE])
      | error e => exact ⟨e, by simp [create_multiple_loop, hcf]⟩
    | succ k =>
      cases hcf : create_file cwd fs fi.path fi.content with
      | error e =>
        rw [List.take_succ_cons] at hok
        simp [createsOk, hcf] at hok
      | ok fs2 =>
        have hk2 : k < rest.length := Nat.lt_of_succ_lt_succ hk
        have hok2 : createsOk cwd fs2 (rest.take k) = true := by
          rw [List.take_succ_cons] at hok
          simpa [createsOk, hcf] using hok
        have hfold : foldCreate cwd fs ((fi :: rest).take (k + 1)) =
            foldCreate cwd fs2 (rest.take k) := by
          simp [List.take_succ_cons, foldCreate, hcf]
        have hfail2 : isOkE (create_file cwd (foldCreate cwd fs2 (rest.take k))
            (rest.get ⟨k, hk2⟩).path (rest.get ⟨k, hk2⟩).content) = false := by
          rw [← hfold]
          exact hfail
        obtain ⟨e, he⟩ := ih fs2 k hk2 hok2 hfail2
        refine ⟨e, ?_⟩
        rw [hfold]
        simp [create_multiple_loop, hcf, he]

/-- Creations at other resolved paths do not change a read. -/
lemma foldCreate_untouched (cwd : List String) (hcwd : ¬ ".." ∈ cwd) :
    ∀ (l : List FInfo) (fs : FSState) (q : List String),
      (∀ fi ∈ l, resolvePath cwd fi.path ≠ q) →
      fsRead (foldCreate cwd fs l) q = fsRead fs q := by
  intro l
  induction l with
  | nil => intro fs q _; rfl
  | cons fi rest ih =>
    intro fs q hq
    cases hcf : create_file cwd fs fi.path fi.content with
    | error e => simp [foldCreate, hcf]
    | ok fs2 =>
      have hshape := create_file_ok_shape cwd fs fi.path fi.content fs2 hcwd hcf
      have h1 : fsRead fs2 q = fsRead fs q :=
        fsRead_insert_other fs fs2 (resolvePath cwd fi.path) q fi.content
          (by rw [hshape]) (fun h => hq fi (by simp) h.symm)
      have h2 : fsRead (foldCreate cwd fs2 rest) q = fsRead fs2 q :=
        ih fs2 q (fun g hg => hq g (by simp [hg]))
      simp [foldCreate, hcf, h2, h1]

/-- After a fully successful batch with pairwise distinct resolved
paths, every file of the batch holds its own content. -/
lemma foldCreate_content (cwd : List String) (hcwd : ¬ ".." ∈ cwd) :
    ∀ (l : List FInfo) (fs : FSState),
      createsOk cwd fs l = true →
      (l.map (fun fi => resolvePath cwd fi.path)).Nodup →
      ∀ fi ∈ l, fsRead (foldCreate cwd fs l) (resolvePath cwd fi.path) = some fi.content := by
  intro l
  induction l with
  | nil => intro fs _ _ fi hfi; exact absurd hfi (by simp)
  | cons g rest ih =>
    intro fs hok hnd fi hfi
    cases hcf : create_file cwd fs g.path g.content with
    | error e => simp [createsOk, hcf] at hok
    | ok fs2 =>
      have hok2 : createsOk cwd fs2 rest = true := by
        simpa [createsOk, hcf] using hok
      have hshape := create_file_ok_shape cwd fs g.path g.content fs2 hcwd hcf
      have hnd' : resolvePath cwd g.path ∉ rest.map (fun fi => resolvePath cwd fi.path) ∧
          (rest.map (fun fi => resolvePath cwd fi.path)).Nodup := by
        rw [List.map_cons] at hnd
        exact List.nodup_cons.1 hnd
      rcases List.mem_cons.1 hfi with rfl | hfi2
      · have huntouched : fsRead (foldCreate cwd fs2 rest) (resolvePath cwd fi.path) =
            fsRead fs2 (resolvePath cwd fi.path) := by
          apply foldCreate_untouched cwd hcwd rest fs2
          intro fj hfj h
          exact hnd'.1 (h ▸ List.mem_map_of_mem _ hfj)
        have hself : fsRead fs2 (resolvePath cwd fi.path) = some fi.content :=
          fsRead_insert_self fs fs2 (resolvePath cwd fi.path) fi.content (by rw [hshape])
        simp [foldCreate, hcf, huntouched, hself]
      · simp [foldCreate, hcf, ih fs2 hok2 hnd'.2 fi hfi2]

/-- The dispatcher renders a loop exception as an error-result string
while keeping the partially mutated filesystem. -/
lemma dispatch_create_multiple_err (cwd : List String) (fs fs2 : FSState)
    (ls : List FInfo) (e : PyExc)
    (h : create_multiple_loop cwd fs ls = (.error e, fs2)) :
    execute_function_call_dict cwd fs
      ⟨some "create_multiple_files", some (some ⟨none, none, none, some ls, none, none⟩)⟩ =
      (.ok ("Error executing create_multiple_files: " ++ excMsg e), fs2) := by
  simp [execute_function_call_dict, dispatch_body, h]

/-- C10 amended: when the file at position k of a create_multiple_files
batch is the first to fail, the dispatch returns an error-result string
and the filesystem keeps exactly the sequential writes of the first k
files (no rollback, nothing at position k or later created); provided
additionally that the batch's resolved target paths are pairwise
distinct, every file before k is on disk with its full content and the
paths of the files at position k and later read unchanged -- with a
repeated target, a later duplicate write overwrites the earlier file's
content (still with no rollback). -/
theorem create_multiple_files_first_failure (cwd : List String) (fs : FSState)
    (ls : List FInfo) (k : Nat) (hcwd : ¬ ".." ∈ cwd) (hk : k < ls.length)
    (hok : createsOk cwd fs (ls.take k) = true)
    (hfail : isOkE (create_file cwd (foldCreate cwd fs (ls.take k))
      (ls.get ⟨k, hk⟩).path (ls.get ⟨k, hk⟩).content) = false) :
    ∃ e, create_multiple_loop cwd fs ls = (.error e, foldCreate cwd fs (ls.take k)) ∧
      execute_function_call_dict cwd fs
        ⟨some "create_multiple_files", some (some ⟨none, none, none, some ls, none, none⟩)⟩ =
        (.ok ("Error executing create_multiple_files: " ++ excMsg e),
          foldCreate cwd fs (ls.take k)) ∧
      ((ls.map (fun fi => resolvePath cwd fi.path)).Nodup →
        (∀ fi ∈ ls.take k,
          fsRead (foldCreate cwd fs (ls.take k)) (resolvePath cwd fi.path) =
            some fi.content) ∧
        (∀ fi ∈ ls.drop k,
          fsRead (foldCreate cwd fs (ls.take k)) (resolvePath cwd fi.path) =
            fsRead fs (resolvePath cwd fi.path))) := by
  obtain ⟨e, he⟩ := create_multiple_loop_err cwd ls fs k hk hok hfail
  refine ⟨e, he, dispatch_create_multiple_err cwd fs _ ls e he, fun hnd => ⟨?_, ?_⟩⟩
  · have hndk : ((ls.take k).map (fun fi => resolvePath cwd fi.path)).Nodup := by
      rw [List.map_take]
      exact hnd.sublist (List.take_sublist k (ls.map (fun fi => resolvePath cwd fi.path)))
    exact foldCreate_content cwd hcwd (ls.take k) fs hok hndk
  · intro fi hfi
    apply foldCreate_untouched cwd hcwd (ls.take k) fs
    intro fj hfj h
    have hsplit : ls.map (fun g => resolvePath cwd g.path) =
        (ls.take k).map (fun g => resolvePath cwd g.path) ++
        (ls.drop k).map (fun g => resolvePath cwd g.path) := by
      rw [← List.map_append, List.take_append_drop]
    rw [hsplit] at hnd
    have hdisj := (List.nodup_append.1 hnd).2.2
    exact hdisj (List.mem_map_of_mem _ hfj) (h ▸ List.mem_map_of_mem _ hfi)

/-- The batch of the create_multiple_files witness: a good file, then a
home-shorthand path that fails, then an untouched file. -/
def lsB : List FInfo :=
  [⟨⟨"a", false, ["a"]⟩, "x".data⟩,
   ⟨⟨"~/t", false, ["~", "t"]⟩, "y".data⟩,
   ⟨⟨"c", false, ["c"]⟩, "z".data⟩]

/-- Witness for create_multiple_files_first_failure: the batch fails at
position 1, the first file is on disk, the last is not created. -/
theorem create_multiple_files_first_failure_witness :
    ∃ e, create_multiple_loop ["w"] fsEmpty lsB =
        (.error e, foldCreate ["w"] fsEmpty (lsB.take 1)) ∧
      execute_function_call_dict ["w"] fsEmpty
        ⟨some "create_multiple_files", some (some ⟨none, none, none, some lsB, none, none⟩)⟩ =
        (.ok ("Error executing create_multiple_files: " ++ excMsg e),
          foldCreate ["w"] fsEmpty (lsB.take 1)) ∧
      ((lsB.map (fun fi => resolvePath ["w"] fi.path)).Nodup →
        (∀ fi ∈ lsB.take 1,
          fsRead (foldCreate ["w"] fsEmpty (lsB.take 1)) (resolvePath ["w"] fi.path) =
            some fi.content) ∧
        (∀ fi ∈ lsB.drop 1,
          fsRead (foldCreate ["w"] fsEmpty (lsB.take 1)) (resolvePath ["w"] fi.path) =
            fsRead fsEmpty (resolvePath ["w"] fi.path))) :=
  create_multiple_files_first_failure ["w"] fsEmpty lsB 1
    (by decide) (by decide) (by decide) (by decide)

/-- The duplicated-path batch of the C10 counterexample: two writes to
the same target, then a failing home-shorthand path. -/
def lsDup : List FInfo :=
  [⟨⟨"a", false, ["a"]⟩, "x".data⟩,
   ⟨⟨"a", false, ["a"]⟩, "y".data⟩,
   ⟨⟨"~/t", false, ["~", "t"]⟩, "t".data⟩]

/-- C10 counterexample: the batch first fails at position 2 and the
dispatch aborts there, but the file at position 0 is not on disk with
its full content: the duplicate write at position 1 overwrote it, so
the claim's every-earlier-file conjunct fails without a
distinct-targets proviso. -/
theorem create_multiple_duplicate_overwrites :
    (create_multiple_loop ["w"] fsEmpty lsDup).1 = .error .valueError ∧
    fsRead (create_multiple_loop ["w"] fsEmpty lsDup).2 ["w", "a"] = some "y".data ∧
    ¬ fsRead (create_multiple_loop ["w"] fsEmpty lsDup).2 ["w", "a"] = some "x".data :=
  ⟨rfl, rfl, by decide⟩

/-! ## C5: conversation trimming -/

/-- A filter and its complement partition the length. -/
lemma length_filter_partition {α : Type} (p : α → Bool) :
    ∀ l : List α, (l.filter p).length + (l.filter (fun a => !(p a))).length = l.length := by
  intro l
  induction l with
  | nil => rfl
  | cons a rest ih => cases hp : p a <;> simp [List.filter, hp] <;> omega

/-- Membership in the preamble copies is the preamble predicate, for
messages of the history itself. -/
lemma other_msgs_eq (history : List Msg) :
    history.filter (fun m => !(decide (m ∈ history.filter isPreamble))) =
    history.filter (fun m => !(isPreamble m)) := by
  apply List.filter_congr
  intro m hm
  by_cases h : isPreamble m = true
  · simp [h, List.mem_filter, hm]
  · simp only [Bool.not_eq_true] at h
    simp [List.mem_filter, h]

/-- Deduplication does not lengthen a list. -/
lemma dedupIdx_length_le : ∀ (l : List (Nat × Msg)) (seen : List Nat),
    (dedupIdx l seen).length ≤ l.length := by
  intro l
  induction l with
  | nil => intro seen; simp [dedupIdx]
  | cons q rest ih =>
    intro seen
    by_cases h : q.1 ∈ seen
    · simp only [dedupIdx, if_pos h]
      exact Nat.le_succ_of_le (ih seen)
    · simp only [dedupIdx, if_neg h, List.length_cons]
      exact Nat.succ_le_succ (ih (q.1 :: seen))

/-- The system preamble of the source conversation, as a message. -/
def preambleMsg : Msg := ⟨"system", some system_PROMPT, [], none⟩

/-- A plain user message. -/
def userHi : Msg := ⟨"user", some "hi", [], none⟩

/-- The counterexample history: the preamble plus thirty user turns. -/
def histC5 : List Msg := preambleMsg :: List.replicate 30 userHi

/-- Filtering a constant-false replicate gives nothing. -/
lemma filter_replicate_neg {α : Type} (p : α → Bool) (a : α) (h : p a = false) :
    ∀ n, (List.replicate n a).filter p = [] := by
  intro n
  induction n with
  | zero => rfl
  | succ n ih => simp [List.replicate, List.filter, h, ih]

/-- Filtering a constant-true replicate keeps everything. -/
lemma filter_replicate_pos {α : Type} (p : α → Bool) (a : α) (h : p a = true) :
    ∀ n, (List.replicate n a).filter p = List.replicate n a := by
  intro n
  induction n with
  | zero => rfl
  | succ n ih => simp [List.replicate, List.filter, h, ih]

/-- The preamble copies of the counterexample history. -/
lemma histC5_filter : histC5.filter isPreamble = [preambleMsg] := by
  have hp : isPreamble preambleMsg = true := by
    simp [isPreamble, preambleMsg]
  have hu : isPreamble userHi = false := by
    simp [isPreamble, userHi]
  simp [histC5, List.filter_cons, hp, hu, filter_replicate_neg isPreamble userHi hu]

/-- C5 counterexample: on a 31-message history (the preamble plus
thirty user turns) the length gate fires but the non-preamble count
(30) is not above the ceiling, so trim makes no change and the
post-trim message count is 31 -- the claim that the post-trim count
never exceeds 30 is false. -/
theorem trim_exceeds_ceiling :
    30 < (trim_conversation_history histC5).length := by
  have hlen : histC5.length = 31 := by simp [histC5]
  have hne : ¬ userHi = preambleMsg := by
    simp [userHi, preambleMsg]
  have h2 : (decide (userHi ∈ ([preambleMsg] : List Msg))) = false := by
    simp [hne]
  have hoth : histC5.filter (fun m => !(decide (m ∈ ([preambleMsg] : List Msg)))) =
      List.replicate 30 userHi := by
    have h1 : (decide (preambleMsg ∈ ([preambleMsg] : List Msg))) = true := by simp
    simp [histC5, List.filter_cons, h1, h2, hne,
      filter_replicate_pos (fun m => !(decide (m ∈ ([preambleMsg] : List Msg)))) userHi
        (by simp [hne])]
  unfold trim_conversation_history
  rw [if_neg (by omega)]
  simp only [histC5_filter, hoth]
  rw [if_pos (by simp)]
  omega

/-- C5 amended: on a history that starts with the (unique) preamble
copy, trim keeps the preamble first, and the post-trim count never
exceeds 31 = 1 + 30: the ceiling of 30 is applied to the non-preamble
messages, with the preamble itself on top (and the rebuilt history is
capped by the preamble plus the five retained user messages plus the
twenty-five retained recent messages). -/
theorem trim_keeps_preamble (history : List Msg) (m0 : Msg)
    (hone : (history.filter isPreamble).length = 1)
    (hhead : history.head? = some m0) (hm0 : isPreamble m0 = true) :
    (∃ m, (trim_conversation_history history).head? = some m ∧ isPreamble m = true) ∧
    (trim_conversation_history history).length ≤ 31 := by
  have hpart := length_filter_partition isPreamble history
  have hother := other_msgs_eq history
  unfold trim_conversation_history
  by_cases h30 : history.length ≤ 30
  · rw [if_pos h30]
    exact ⟨⟨m0, hhead, hm0⟩, by omega⟩
  · rw [if_neg h30]
    by_cases h31 :
        (history.filter (fun m => !(decide (m ∈ history.filter isPreamble)))).length ≤ 30
    · rw [if_pos h31]
      rw [hother] at h31
      exact ⟨⟨m0, hhead, hm0⟩, by omega⟩
    · rw [if_neg h31]
      obtain ⟨m, hm⟩ := List.length_eq_one.1 hone
      have hmem : m ∈ history.filter isPreamble := by
        rw [hm]
        exact List.mem_singleton.2 rfl
      have hmp : isPreamble m = true := (List.mem_filter.1 hmem).2
      constructor
      · exact ⟨m, by rw [hm]; rfl, hmp⟩
      · set other := history.filter (fun m => !(decide (m ∈ history.filter isPreamble)))
          with hodef
        set users := other.enum.filter (fun q => decide (q.2.role = "user")) with hudef
        set pool := users.drop (users.length - 5) ++
          other.enum.drop (other.enum.length - 25) with hpdef
        have hk := dedupIdx_length_le pool []
        have h5 : (users.drop (users.length - 5)).length ≤ 5 := by
          rw [List.length_drop]
          omega
        have h25 : (other.enum.drop (other.enum.length - 25)).length ≤ 25 := by
          rw [List.length_drop]
          omega
        have hplen : pool.length ≤ 30 := by
          rw [hpdef, List.length_append]
          omega
        have hgoal : (history.filter isPreamble ++
            (dedupIdx pool []).map (fun q => q.2)).length ≤ 31 := by
          rw [List.length_append, List.length_map]
          omega
        exact hgoal

/-- Witness for trim_keeps_preamble on the singleton history. -/
theorem trim_keeps_preamble_witness :
    (∃ m, (trim_conversation_history [preambleMsg]).head? = some m ∧
      isPreamble m = true) ∧
    (trim_conversation_history [preambleMsg]).length ≤ 31 :=
  trim_keeps_preamble [preambleMsg] preambleMsg
    (by simp [isPreamble, preambleMsg]) rfl (by simp [isPreamble, preambleMsg])

/-! ## C7: directory ingestion -/

/-- Unfolding equation of the scan at a cons cell. -/
lemma scanEntries_cons (a : FEntry) (rest : List FEntry) :
    scanEntries (a :: rest) =
      if headIs '.' a.name || decide (a.name ∈ excluded_files) then
        ((scanEntries rest).1, a :: (scanEntries rest).2)
      else if decide (extOf a.name ∈ excluded_extensions) then
        ((scanEntries rest).1, a :: (scanEntries rest).2)
      else if 500000 < a.size then ((scanEntries rest).1, a :: (scanEntries rest).2)
      else if a.binary then ((scanEntries rest).1, a :: (scanEntries rest).2)
      else (a :: (scanEntries rest).1, (scanEntries rest).2) := rfl

/-- Every eligible entry passed the size gate. -/
lemma scan_eligible_size :
    ∀ (entries : List FEntry) (e : FEntry), e ∈ (scanEntries entries).1 →
      e.size ≤ 500000 := by
  intro entries
  induction entries with
  | nil => intro e he; exact absurd he (by simp [scanEntries])
  | cons a rest ih =>
    intro e he
    rw [scanEntries_cons] at he
    by_cases h1 : (headIs '.' a.name || decide (a.name ∈ excluded_files)) = true
    · rw [if_pos h1] at he
      exact ih e he
    · rw [if_neg h1] at he
      by_cases h2 : decide (extOf a.name ∈ excluded_extensions) = true
      · rw [if_pos h2] at he
        exact ih e he
      · rw [if_neg h2] at he
        by_cases h3 : 500000 < a.size
        · rw [if_pos h3] at he
          exact ih e he
        · rw [if_neg h3] at he
          by_cases h4 : a.binary = true
          · rw [if_pos h4] at he
            exact ih e he
          · rw [if_neg h4] at he
            rcases List.mem_cons.1 he with rfl | he2
            · omega
            · exact ih e he2

/-- Every oversized entry the walk yields lands in the skipped list. -/
lemma scan_large_skipped :
    ∀ (entries : List FEntry) (e : FEntry), e ∈ entries → 500000 < e.size →
      e ∈ (scanEntries entries).2 := by
  intro entries
  induction entries with
  | nil => intro e he; exact absurd he (by simp)
  | cons a rest ih =>
    intro e he hsz
    rw [scanEntries_cons]
    rcases List.mem_cons.1 he with rfl | he2
    · by_cases h1 : (headIs '.' e.name || decide (e.name ∈ excluded_files)) = true
      · rw [if_pos h1]
        exact List.mem_cons_self e _
      · rw [if_neg h1]
        by_cases h2 : decide (extOf e.name ∈ excluded_extensions) = true
        · rw [if_pos h2]
          exact List.mem_cons_self e _
        · rw [if_neg h2, if_pos hsz]
          exact List.mem_cons_self e _
    · have hmem := ih e he2 hsz
      by_cases h1 : (headIs '.' a.name || decide (a.name ∈ excluded_files)) = true
      · rw [if_pos h1]
        exact List.mem_cons_of_mem a hmem
      · rw [if_neg h1]
        by_cases h2 : decide (extOf a.name ∈ excluded_extensions) = true
        · rw [if_pos h2]
          exact List.mem_cons_of_mem a hmem
        · rw [if_neg h2]
          by_cases h3 : 500000 < a.size
          · rw [if_pos h3]
            exact List.mem_cons_of_mem a hmem
          · rw [if_neg h3]
            by_cases h4 : a.binary = true
            · rw [if_pos h4]
              exact List.mem_cons_of_mem a hmem
            · rw [if_neg h4]
              exact hmem

/-- The admission loop admits exactly the readable entries of a prefix
of its input, and stops precisely at a file whose estimated cost would
push the running total over the budget. -/
lemma processFiles_spec (current : Nat) :
    ∀ (l : List FEntry) (total : Nat),
      ∃ n, n ≤ l.length ∧
        (processFiles current total l).1 =
          (l.take n).filter (fun f => f.content.isSome) ∧
        (n = l.length ∨ ∃ (h : n < l.length) (c : List Char),
          (l.get ⟨n, h⟩).content = some c ∧
          MAX_CONTEXT_TOKENS <
            current + (processFiles current total l).2 + estimate_tokens c) := by
  intro l
  induction l with
  | nil =>
    intro total
    exact ⟨0, by simp, by simp [processFiles], Or.inl rfl⟩
  | cons f rest ih =>
    intro total
    cases hc : f.content with
    | none =>
      obtain ⟨n, hn, hadd, hstop⟩ := ih total
      refine ⟨n + 1, by simpa using Nat.succ_le_succ hn, ?_, ?_⟩
      · simp [processFiles, hc, List.take_succ_cons, List.filter_cons, hadd]
      · rcases hstop with h | ⟨h, c, hcc, hbud⟩
        · exact Or.inl (by simp [h])
        · refine Or.inr ⟨by simpa using Nat.succ_lt_succ h, c, by simpa using hcc, ?_⟩
          simpa [processFiles, hc] using hbud
    | some c =>
      by_cases hbud : MAX_CONTEXT_TOKENS < current + total + estimate_tokens c
      · refine ⟨0, by simp, ?_, ?_⟩
        · simp [processFiles, hc, hbud]
        · refine Or.inr ⟨by simp, c, hc, ?_⟩
          simp [processFiles, hc, hbud]
      · obtain ⟨n, hn, hadd, hstop⟩ := ih
          (total + (if MAX_FILE_TOKENS / 2 < estimate_tokens c
            then estimate_tokens (truncate_content c (MAX_FILE_TOKENS / 2))
            else estimate_tokens c))
        refine ⟨n + 1, by simpa using Nat.succ_le_succ hn, ?_, ?_⟩
        · simp [processFiles, hc, hbud, List.take_succ_cons, List.filter_cons, hadd,
            Option.isSome]
        · rcases hstop with h | ⟨h, c2, hcc, hbud2⟩
          · exact Or.inl (by simp [h])
          · refine Or.inr ⟨by simpa using Nat.succ_lt_succ h, c2, by simpa using hcc, ?_⟩
            simpa [processFiles, hc, hbud] using hbud2

/-- C7: every directory ingestion admits at most twenty files; every
oversized file the walk yields is placed in the skipped set and never
admitted; and the admitted files are exactly the readable entries of a
prefix of the capped walk-order candidates -- the prefix ends either at
the end of the candidates or at the first file whose estimated token
cost would push the running total over the remaining context budget,
so ingestion halts there rather than skipping and continuing. -/
theorem add_directory_budget (entries : List FEntry) (current : Nat) :
    (add_directory_to_conversation current entries).1.length ≤ 20 ∧
    (∀ e ∈ entries, 500000 < e.size →
      e ∈ (add_directory_to_conversation current entries).2 ∧
      ¬ e ∈ (add_directory_to_conversation current entries).1) ∧
    ∃ n, n ≤ (files_to_add entries).length ∧
      (add_directory_to_conversation current entries).1 =
        ((files_to_add entries).take n).filter (fun f => f.content.isSome) ∧
      (n = (files_to_add entries).length ∨
        ∃ (h : n < (files_to_add entries).length) (c : List Char),
          ((files_to_add entries).get ⟨n, h⟩).content = some c ∧
          MAX_CONTEXT_TOKENS < current +
            (processFiles current 0 (files_to_add entries)).2 + estimate_tokens c) := by
  obtain ⟨n, hn, hadd, hstop⟩ := processFiles_spec current (files_to_add entries) 0
  have hfst : (add_directory_to_conversation current entries).1 =
      (processFiles current 0 (files_to_add entries)).1 := rfl
  have hcap : (files_to_add entries).length ≤ 20 :=
    List.length_take_le MAX_FILES_PER_ADD (scanEntries entries).1
  refine ⟨?_, ?_, n, hn, by rw [hfst, hadd], hstop⟩
  · rw [hfst, hadd]
    calc (((files_to_add entries).take n).filter (fun f => f.content.isSome)).length
        ≤ ((files_to_add entries).take n).length := List.length_filter_le _ _
      _ ≤ (files_to_add entries).length := by
          rw [List.length_take]
          omega
      _ ≤ 20 := hcap
  · intro e he hsize
    refine ⟨scan_large_skipped entries e he hsize, ?_⟩
    intro hin
    rw [hfst, hadd] at hin
    have h1 : e ∈ (files_to_add entries).take n := (List.mem_filter.1 hin).1
    have h2 : e ∈ files_to_add entries := List.take_subset n _ h1
    have h3 : e ∈ (scanEntries entries).1 := by
      have := List.take_subset MAX_FILES_PER_ADD (scanEntries entries).1
      exact this (by simpa [files_to_add] using h2)
    have := scan_eligible_size entries e h3
    omega

/-- Entries of the ingestion witness: a 600,000-byte file and a
10-byte file (scenario C of the spec). -/
def entriesC : List FEntry :=
  [⟨"big.txt", 600000, false, some "abcdefghij".data⟩,
   ⟨"small.txt", 10, false, some "abcdefghij".data⟩]

/-- Witness for add_directory_budget on scenario C: the oversized-file
part applies to the 600,000-byte entry. -/
theorem add_directory_budget_witness :
    (add_directory_to_conversation 0 entriesC).1.length ≤ 20 ∧
    (∀ e ∈ entriesC, 500000 < e.size →
      e ∈ (add_directory_to_conversation 0 entriesC).2 ∧
      ¬ e ∈ (add_directory_to_conversation 0 entriesC).1) ∧
    ∃ n, n ≤ (files_to_add entriesC).length ∧
      (add_directory_to_conversation 0 entriesC).1 =
        ((files_to_add entriesC).take n).filter (fun f => f.content.isSome) ∧
      (n = (files_to_add entriesC).length ∨
        ∃ (h : n < (files_to_add entriesC).length) (c : List Char),
          ((files_to_add entriesC).get ⟨n, h⟩).content = some c ∧
          MAX_CONTEXT_TOKENS < 0 +
            (processFiles 0 0 (files_to_add entriesC)).2 + estimate_tokens c) :=
  add_directory_budget entriesC 0

/-! ## C8: truncation idempotence -/

/-- The estimator as plain floor division, branch-free. -/
lemma estimate_tokens_eq (text : List Char) :
    estimate_tokens text = text.length * 11 / 40 := by
  rw [estimate_tokens]
  split
  · rename_i h
    rw [h]
    rfl
  · rfl

/-- The C8 counterexample content: 350 a-bytes, a newline, 77
b-bytes. -/
def sC8 : List Char := List.replicate 350 'a' ++ '\n' :: List.replicate 77 'b'

set_option maxRecDepth 4000 in
/-- C8 counterexample: truncating sC8 at 100 tokens backs up to the
newline (350 characters plus the marker); re-truncating that output
cuts again at the marker's own newline, producing a longer, different
string -- so truncate is not idempotent as claimed. -/
theorem truncate_not_idempotent :
    truncate_content (truncate_content sC8 100) 100 ≠ truncate_content sC8 100 := by
  decide

/-- C8 amended: truncation is idempotent on content already within the
token limit (it is returned unchanged), and on over-limit content whose
four-characters-per-token window is filled and has no line break beyond
its eighty percent mark; re-truncating output whose cut backed up to a
line boundary (or whose content ran out before the window) shortens it
again, so unrestricted idempotence fails. -/
theorem truncate_content_idem (s : List Char) (n : Nat)
    (h : estimate_tokens s ≤ n ∨
      (4 * n ≤ s.length ∧
        ∀ i, lastNlIdx (s.take (4 * n)) = some i → 5 * i ≤ 16 * n)) :
    truncate_content (truncate_content s n) n = truncate_content s n := by
  by_cases h0 : estimate_tokens s ≤ n
  · simp [truncate_content, h0]
  · rcases h with h0' | ⟨h4n, hnl⟩
    · exact absurd h0' h0
    · have hcl : n * CHARS_PER_TOKEN = 4 * n := by
        simp [CHARS_PER_TOKEN, Nat.mul_comm]
      have htlen : (s.take (4 * n)).length = 4 * n := by
        rw [List.length_take]
        omega
      have hback : (match lastNlIdx (s.take (4 * n)) with
          | some i => if 16 * n < 5 * i then (s.take (4 * n)).take i else s.take (4 * n)
          | none => s.take (4 * n)) = s.take (4 * n) := by
        cases hli : lastNlIdx (s.take (4 * n)) with
        | none => rfl
        | some i =>
          have hle := hnl i hli
          simp [Nat.not_lt.2 hle]
      have ht1 : truncate_content s n = s.take (4 * n) ++ truncationMarker := by
        simp only [truncate_content, if_neg h0]
        rw [hcl, hback]
      have hmlen : truncationMarker.length = 44 := rfl
      have hlen1 : (s.take (4 * n) ++ truncationMarker).length = 4 * n + 44 := by
        rw [List.length_append, htlen, hmlen]
      have hgt : ¬ estimate_tokens (s.take (4 * n) ++ truncationMarker) ≤ n := by
        rw [estimate_tokens_eq, hlen1]
        intro hle
        have h40 : (0 : Nat) < 40 := by norm_num
        have := (Nat.le_div_iff_mul_le h40).2 (show (n + 1) * 40 ≤ (4 * n + 44) * 11 by omega)
        omega
      have htake : (s.take (4 * n) ++ truncationMarker).take (4 * n) = s.take (4 * n) :=
        List.take_left' htlen
      rw [ht1]
      simp only [truncate_content, if_neg hgt]
      rw [hcl, htake, hback]

/-- Witness for truncate_content_idem on short content. -/
theorem truncate_content_idem_witness :
    truncate_content (truncate_content "aaaa".data 2) 2 = truncate_content "aaaa".data 2 :=
  truncate_content_idem "aaaa".data 2 (Or.inl (by decide))
